import Mathlib

/-!
Shallow embedding of `src/WebPageLinker/WebPageLinker.c`.

The C program keeps a global singly linked list of `struct page` nodes
(`graphHead`); each page has a `name`, a linked list of outgoing `struct link`
edges (each a pointer to a destination page), and an `int visited` flag.
Pages are only ever appended at the end of the list and never removed, so page
pointers are modelled as stable indices into the list of pages.  A `Graph` is
the list of pages in `graphHead` order, and an edge stores the index of its
destination page.
-/

namespace WebPageLinker

/-- Model of `struct page`: a name, the ordered outgoing-edge list (destination page
indices, in adjacency-list order), and the traversal flag. -/
structure Page where
  name : String
  edges : List Nat
  visited : Bool
deriving Repr, DecidableEq

/-- The global page list rooted at `graphHead`, in list order. -/
abbrev Graph := List Page

/-- Model of `findNode(name)` (C lines 190–207): scan from `graphHead`, return a pointer
to the first page whose name matches, else NULL.  Pointer = index here. -/
def findNodeIdx : Graph → String → Option Nat
  | [], _ => none
  | p :: rest, name =>
    if p.name == name then some 0
    else (findNodeIdx rest name).map (· + 1)

/-- Model of `findPage(pageName)` (C lines 283–296): 0 if a page with that name exists,
1 otherwise. -/
def findPage : Graph → String → Nat
  | [], _ => 1
  | p :: rest, name => if p.name == name then 0 else findPage rest name

/-- Model of `addPageToGraph(node)` (C lines 62–90): if the list is empty the node
becomes the head; otherwise the list is scanned, a name match is an error
(return 1, list untouched), and on no match the node is appended at the end
(return 0).  The C scan reports the error at the first match; since it either
errors or appends after the full scan, this is `if any match then error else
append`. -/
def addPageToGraph (g : Graph) (node : Page) : Nat × Graph :=
  match g with
  | [] => (0, [node])
  | _ :: _ =>
    if g.any (fun p => p.name == node.name) then (1, g)
    else (0, g ++ [node])

/-- The scan inside `addLinkToPage` (C lines 119–140): walk the whole list,
remembering the last page whose name matches (the C code overwrites
`src`/`linkNode` on every match and never breaks).  `i` is the index of the
head of the remaining list, `acc` the last match seen so far. -/
def findLastIdxAux : Graph → String → Nat → Option Nat → Option Nat
  | [], _, _, acc => acc
  | p :: rest, name, i, acc =>
    findLastIdxAux rest name (i + 1) (if p.name == name then some i else acc)

/-- Index of the last page named `name`, if any (see `findLastIdxAux`). -/
def findLastIdx (g : Graph) (name : String) : Option Nat :=
  findLastIdxAux g name 0 none

/-- Model of `addLinkToPage(srcPage, link)` (C lines 102–180): scan for the source and
destination pages; if either is missing report the error (return 1, graph
untouched).  Otherwise append a new link node pointing at the destination to
the END of the source page's edge list (the C walks `src->edges` to its tail)
and return 0.  No deduplication; self-loops allowed.  The inner `none` branch
is unreachable: `findLastIdx` only returns in-bounds indices. -/
def addLinkToPage (g : Graph) (srcPage link : String) : Nat × Graph :=
  match findLastIdx g srcPage, findLastIdx g link with
  | some si, some di =>
    match g[si]? with
    | some src => (0, g.set si { src with edges := src.edges ++ [di] })
    | none => (1, g)
  | _, _ => (1, g)

/-- Model of `dfs(fromPage, toPage)` (C lines 218–238): success if the names match
(checked before the visited flag); fail on an already-visited page; otherwise
mark the page visited and try the outgoing edges in order, short-circuiting on
the first success.  The C recursion is bounded by the visited marking; the
embedding makes that bound explicit as `fuel` (the C behaviour is the value at
any sufficiently large fuel, see the fuel-irrelevance lemmas).  The fold keeps
the accumulator unchanged once it is `true`, which is exactly the C early
`return 1`. -/
def dfs (fuel : Nat) (g : Graph) (fi ti : Nat) : Bool × Graph :=
  match fuel with
  | 0 => (false, g)
  | fuel + 1 =>
    match g[fi]?, g[ti]? with
    | some fp, some tp =>
      if fp.name == tp.name then (true, g)
      else if fp.visited then (false, g)
      else
        fp.edges.foldl
          (fun acc e => if acc.1 then acc else dfs fuel acc.2 e ti)
          (false, g.set fi { fp with visited := true })
    | _, _ => (false, g)

/-- Model of `resetVisits()` (C lines 247–253): set every page's visited flag to 0. -/
def resetVisits (g : Graph) : Graph :=
  g.map fun p => { p with visited := false }

/-- Model of `printConnection(pageOne, pageTwo)` (C lines 265–274): look both names up,
run `dfs`, emit the boolean, then `resetVisits()`.  The C assumes both pages
exist (the caller checks with `findPage`); the missing-page branch here is a
modelling default for that unreachable case.  Fuel `g.length + 1` is enough
for the C recursion (proved below: larger fuels give the same value). -/
def printConnection (g : Graph) (pageOne pageTwo : String) : Bool × Graph :=
  match findNodeIdx g pageOne, findNodeIdx g pageTwo with
  | some fi, some ti =>
    let r := dfs (g.length + 1) g fi ti
    (r.1, resetVisits r.2)
  | _, _ => (false, resetVisits g)

/-- Interpreter state of `main` (C lines 360–531): the graph, the `errSeen`
counter, and the sequence of boolean lines printed by `printConnection`. -/
structure St where
  graph : Graph
  errSeen : Nat
  output : List Bool
deriving Repr, DecidableEq

/-- The per-argument loops of `main`: apply `f` to each argument in order,
accumulating `errSeen += result` and threading the graph (C lines 456–471 and
481–486 both have this shape). -/
def applyEach (f : Graph → String → Nat × Graph) (st : St) (args : List String) : St :=
  args.foldl
    (fun s a =>
      let r := f s.graph a
      { s with graph := r.2, errSeen := s.errSeen + r.1 })
    st

/-- Handling of `@addPages` (C lines 456–471): each argument becomes a fresh node
with no edges and visited = 0, and `errSeen += addPageToGraph(node)`. -/
def doAddPages (st : St) (args : List String) : St :=
  applyEach (fun g a => addPageToGraph g { name := a, edges := [], visited := false }) st args

/-- Handling of `@addLinks` (C lines 473–492): with a source and at least one
destination, link each destination in order (`errSeen += addLinkToPage`).
With no argument at all, report the error and SET `errSeen = 1`.  With exactly
one argument the C falls into the `else` whose only test is
`pageLinks[0] == 0`, which is false — nothing happens at all. -/
def doAddLinks (st : St) (args : List String) : St :=
  match args with
  | [] => { st with errSeen := 1 }
  | [_] => st
  | src :: rest =>
    applyEach (fun g d => addLinkToPage g src d) st rest

/-- Handling of `@isConnected` (C lines 494–516): any argument count other than
two is an error (`errSeen += 1`); with two arguments, if either page is
missing (`findPage` ≠ 0) report it (`errSeen++`); otherwise call
`printConnection` and record its printed boolean. -/
def doIsConnected (st : St) (args : List String) : St :=
  match args with
  | [a, b] =>
    if findPage st.graph a ≠ 0 ∨ findPage st.graph b ≠ 0 then
      { st with errSeen := st.errSeen + 1 }
    else
      let r := printConnection st.graph a b
      { st with graph := r.2, output := st.output ++ [r.1] }
  | _ => { st with errSeen := st.errSeen + 1 }

/-- One iteration of the `getline` loop of `main` (C lines 386–524) on an
already-tokenized line.  An empty line leaves everything untouched (the first
`strtok` returns NULL, so `action` stays NULL).  An unrecognized first token
prints "Invalid Input." and SETS `errSeen = 1`. -/
def processLine (st : St) (tokens : List String) : St :=
  match tokens with
  | [] => st
  | verb :: args =>
    if verb == "@addPages" then doAddPages st args
    else if verb == "@addLinks" then doAddLinks st args
    else if verb == "@isConnected" then doIsConnected st args
    else { st with errSeen := 1 }

/-- The whole `getline` loop: lines are processed in order, unconditionally. -/
def processLines (st : St) (lines : List (List String)) : St :=
  lines.foldl processLine st

/-- Initial state: empty graph (`graphHead = NULL`), `errSeen = 0`, nothing
printed. -/
def initSt : St := { graph := [], errSeen := 0, output := [] }

/-- Model of `return errSeen >= 1` (C line 530): exit status 1 if any error was seen,
0 otherwise. -/
def exitStatus (lines : List (List String)) : Nat :=
  if 1 ≤ (processLines initSt lines).errSeen then 1 else 0

/-- Whether processing `tokens` against graph `g` records an error (raises
`errSeen` above 0 when started from 0). -/
def lineHasError (g : Graph) (tokens : List String) : Bool :=
  decide (1 ≤ (processLine { graph := g, errSeen := 0, output := [] } tokens).errSeen)

/-- Whether any line of the sequence records an error, threading the graph the
way the interpreter does. -/
def anyLineError : Graph → List (List String) → Bool
  | _, [] => false
  | g, l :: ls =>
    lineHasError g l ||
      anyLineError (processLine { graph := g, errSeen := 0, output := [] } l).graph ls

/-- All visited flags clear — the state every query must start and end in. -/
def allUnvisited (g : Graph) : Prop := ∀ p ∈ g, p.visited = false

/-- Number of pages whose visited flag is clear; the DFS termination measure. -/
def unvisitedCount (g : Graph) : Nat := (g.filter (fun p => !p.visited)).length

/-! Section: Lookup lemmas -/

lemma findPage_eq_zero_iff (g : Graph) (n : String) :
    findPage g n = 0 ↔ ∃ p ∈ g, p.name = n := by
  induction g with
  | nil => simp [findPage]
  | cons p rest ih =>
    by_cases h : p.name = n
    · simp [findPage, h]
    · have hb : (p.name == n) = false := beq_eq_false_iff_ne.mpr h
      simp [findPage, hb, ih, h]

lemma findNodeIdx_spec (g : Graph) (n : String) (i : Nat)
    (h : findNodeIdx g n = some i) : ∃ p, g[i]? = some p ∧ p.name = n := by
  induction g generalizing i with
  | nil => simp [findNodeIdx] at h
  | cons p rest ih =>
    by_cases hp : p.name = n
    · have hb : (p.name == n) = true := beq_iff_eq.mpr hp
      simp [findNodeIdx, hb] at h
      subst h
      exact ⟨p, by simp, hp⟩
    · have hb : (p.name == n) = false := beq_eq_false_iff_ne.mpr hp
      simp [findNodeIdx, hb] at h
      obtain ⟨j, hj, rfl⟩ := h
      obtain ⟨q, hq, hqn⟩ := ih j hj
      exact ⟨q, by simpa using hq, hqn⟩

lemma findNodeIdx_isSome (g : Graph) (n : String)
    (h : ∃ p ∈ g, p.name = n) : ∃ i, findNodeIdx g n = some i := by
  induction g with
  | nil => simp at h
  | cons p rest ih =>
    by_cases hp : p.name = n
    · exact ⟨0, by simp [findNodeIdx, beq_iff_eq.mpr hp]⟩
    · have hb : (p.name == n) = false := beq_eq_false_iff_ne.mpr hp
      obtain ⟨q, hq, hqn⟩ := h
      rcases List.mem_cons.mp hq with rfl | hq'
      · exact absurd hqn hp
      · obtain ⟨i, hi⟩ := ih ⟨q, hq', hqn⟩
        exact ⟨i + 1, by simp [findNodeIdx, hb, hi]⟩

/-- Reference recursion computing the index of the LAST name match, used to
characterize `findLastIdx` (which mirrors the C scan with an accumulator). -/
def lastMatch : Graph → String → Option Nat
  | [], _ => none
  | p :: rest, n =>
    match lastMatch rest n with
    | some k => some (k + 1)
    | none => if p.name == n then some 0 else none

lemma findLastIdxAux_eq (g : Graph) (n : String) :
    ∀ (i : Nat) (acc : Option Nat),
      findLastIdxAux g n i acc =
        match lastMatch g n with
        | some k => some (i + k)
        | none => acc := by
  induction g with
  | nil => intro i acc; simp [findLastIdxAux, lastMatch]
  | cons p rest ih =>
    intro i acc
    rw [findLastIdxAux, ih]
    rcases hl : lastMatch rest n with _ | k
    · by_cases hp : (p.name == n) = true
      · simp [lastMatch, hl, hp]
      · simp at hp
        simp [lastMatch, hl, beq_eq_false_iff_ne.mpr hp]
    · simp only [lastMatch, hl, Option.some.injEq]
      omega

lemma findLastIdx_eq (g : Graph) (n : String) :
    findLastIdx g n = lastMatch g n := by
  rw [findLastIdx, findLastIdxAux_eq]
  rcases lastMatch g n with _ | k <;> simp

lemma lastMatch_eq_none_iff (g : Graph) (n : String) :
    lastMatch g n = none ↔ ∀ p ∈ g, p.name ≠ n := by
  induction g with
  | nil => simp [lastMatch]
  | cons p rest ih =>
    rcases hl : lastMatch rest n with _ | k
    · by_cases hp : p.name = n
      · simp [lastMatch, hl, beq_iff_eq.mpr hp, hp]
      · have hrest := ih.mp hl
        simp only [lastMatch, hl, beq_eq_false_iff_ne.mpr hp]
        constructor
        · intro _ q hq
          rcases List.mem_cons.mp hq with rfl | hq'
          · exact hp
          · exact hrest q hq'
        · intro _; rfl
    · constructor
      · intro h; simp [lastMatch, hl] at h
      · intro h
        have : lastMatch rest n = none := ih.mpr fun q hq => h q (List.mem_cons_of_mem _ hq)
        rw [this] at hl; cases hl

lemma lastMatch_spec (g : Graph) (n : String) (k : Nat)
    (h : lastMatch g n = some k) : ∃ p, g[k]? = some p ∧ p.name = n := by
  induction g generalizing k with
  | nil => simp [lastMatch] at h
  | cons p rest ih =>
    rcases hl : lastMatch rest n with _ | j
    · rw [lastMatch, hl] at h
      by_cases hp : (p.name == n) = true
      · rw [if_pos hp] at h
        cases h
        exact ⟨p, by simp, beq_iff_eq.mp hp⟩
      · rw [if_neg hp] at h; cases h
    · rw [lastMatch, hl] at h
      cases h
      obtain ⟨q, hq, hqn⟩ := ih j hl
      exact ⟨q, by simpa using hq, hqn⟩

lemma lastMatch_isSome (g : Graph) (n : String)
    (h : ∃ p ∈ g, p.name = n) : ∃ k, lastMatch g n = some k := by
  rcases hl : lastMatch g n with _ | k
  · obtain ⟨p, hp, hpn⟩ := h
    exact absurd hpn (lastMatch_eq_none_iff g n |>.mp hl p hp)
  · exact ⟨k, rfl⟩

/-! Section: List helpers -/

lemma set_getElem?_self {α : Type} (l : List α) (i : Nat) (x : α)
    (h : l[i]? = some x) : l.set i x = l := by
  induction l generalizing i with
  | nil => simp at h
  | cons a rest ih =>
    cases i with
    | zero => simp at h; simp [h]
    | succ j => simp at h; simp [List.set, ih j h]

/-! Section: `resetVisits` and the DFS frame property: `dfs` only touches visited
flags, so everything is equal again after `resetVisits`. -/

lemma allUnvisited_resetVisits (g : Graph) : allUnvisited (resetVisits g) := by
  intro p hp
  simp only [resetVisits, List.mem_map] at hp
  obtain ⟨q, _, rfl⟩ := hp
  rfl

lemma resetVisits_eq_self (g : Graph) (h : allUnvisited g) : resetVisits g = g := by
  induction g with
  | nil => rfl
  | cons p rest ih =>
    have hp : p.visited = false := h p (List.mem_cons_self p rest)
    have hrest : resetVisits rest = rest :=
      ih fun q hq => h q (List.mem_cons_of_mem _ hq)
    have hpp : ({ p with visited := false } : Page) = p := by
      cases p; simp_all
    simp only [resetVisits, List.map_cons] at *
    rw [hpp, hrest]

lemma resetVisits_set (g : Graph) (fi : Nat) (fp : Page) (h : g[fi]? = some fp) :
    resetVisits (g.set fi { fp with visited := true }) = resetVisits g := by
  unfold resetVisits
  rw [List.map_set]
  exact set_getElem?_self _ _ _ (by simp [h])

lemma dfs_foldl_resetVisits (fuel ti : Nat)
    (ih : ∀ g e, resetVisits (dfs fuel g e ti).2 = resetVisits g) :
    ∀ (es : List Nat) (b : Bool) (g : Graph),
      resetVisits
        ((es.foldl (fun acc e => if acc.1 then acc else dfs fuel acc.2 e ti) (b, g)).2) =
        resetVisits g := by
  intro es
  induction es with
  | nil => intro b g; rfl
  | cons e es ihes =>
    intro b g
    rw [List.foldl_cons]
    cases b with
    | true => simpa using ihes true g
    | false =>
      rcases hd : dfs fuel g e ti with ⟨r, g'⟩
      have hg' : resetVisits g' = resetVisits g := by
        have := ih g e
        rw [hd] at this
        exact this
      have harm : (if (false, g).1 = true then (false, g) else (r, g')) = (r, g') := by simp
      rw [harm]
      exact (ihes r g').trans hg'

lemma dfs_resetVisits (fuel : Nat) :
    ∀ (g : Graph) (fi ti : Nat), resetVisits (dfs fuel g fi ti).2 = resetVisits g := by
  induction fuel with
  | zero => intro g fi ti; rfl
  | succ fuel ih =>
    intro g fi ti
    rw [dfs]
    rcases h1 : g[fi]? with _ | fp <;> rcases h2 : g[ti]? with _ | tp <;> simp only [h1, h2]
    by_cases hname : (fp.name == tp.name) = true
    · simp [hname]
    · simp only [Bool.not_eq_true] at hname
      by_cases hv : fp.visited = true
      · simp [hname, hv]
      · simp only [Bool.not_eq_true] at hv
        simp only [hname, hv, Bool.false_eq_true, if_false]
        rw [dfs_foldl_resetVisits fuel ti (fun g e => ih g e ti)]
        exact resetVisits_set g fi fp h1

lemma printConnection_snd (g : Graph) (a b : String) :
    (printConnection g a b).2 = resetVisits g := by
  rw [printConnection]
  rcases findNodeIdx g a with _ | fi <;> rcases findNodeIdx g b with _ | ti <;>
    simp [dfs_resetVisits]

/-! Section: Fuel irrelevance: the C recursion is bounded because every recursive
step first marks an unvisited page visited, so `unvisitedCount` strictly
decreases.  Any fuel larger than `unvisitedCount g` computes the same value,
which is the termination argument for the C `dfs`. -/

lemma unvisitedCount_le_length (g : Graph) : unvisitedCount g ≤ g.length :=
  List.length_filter_le _ g

lemma unvisitedCount_set (g : Graph) (fi : Nat) (fp : Page)
    (h : g[fi]? = some fp) (hv : fp.visited = false) :
    unvisitedCount (g.set fi { fp with visited := true }) + 1 = unvisitedCount g := by
  induction g generalizing fi with
  | nil => simp at h
  | cons p rest ih =>
    cases fi with
    | zero =>
      simp only [List.getElem?_cons_zero, Option.some.injEq] at h
      subst h
      simp [unvisitedCount, List.filter_cons, hv]
    | succ j =>
      simp only [List.getElem?_cons_succ] at h
      have hrec := ih j h
      simp only [unvisitedCount, List.set, List.filter_cons] at *
      by_cases hp : p.visited <;> simp [hp] at * <;> omega

lemma dfs_foldl_unvisited_le (fuel ti : Nat)
    (ih : ∀ g e, unvisitedCount (dfs fuel g e ti).2 ≤ unvisitedCount g) :
    ∀ (es : List Nat) (b : Bool) (g : Graph),
      unvisitedCount
        ((es.foldl (fun acc e => if acc.1 then acc else dfs fuel acc.2 e ti) (b, g)).2) ≤
        unvisitedCount g := by
  intro es
  induction es with
  | nil => intro b g; exact Nat.le_refl _
  | cons e es ihes =>
    intro b g
    rw [List.foldl_cons]
    cases b with
    | true => simpa using ihes true g
    | false =>
      rcases hd : dfs fuel g e ti with ⟨r, g'⟩
      have hg' : unvisitedCount g' ≤ unvisitedCount g := by
        have := ih g e
        rw [hd] at this
        exact this
      have harm : (if (false, g).1 = true then (false, g) else (r, g')) = (r, g') := by simp
      rw [harm]
      exact Nat.le_trans (ihes r g') hg'

lemma dfs_unvisited_le (fuel : Nat) :
    ∀ (g : Graph) (fi ti : Nat), unvisitedCount (dfs fuel g fi ti).2 ≤ unvisitedCount g := by
  induction fuel with
  | zero => intro g fi ti; exact Nat.le_refl _
  | succ fuel ih =>
    intro g fi ti
    rw [dfs]
    rcases h1 : g[fi]? with _ | fp <;> rcases h2 : g[ti]? with _ | tp <;> simp only [h1, h2]
    · exact Nat.le_refl _
    · exact Nat.le_refl _
    · exact Nat.le_refl _
    by_cases hname : (fp.name == tp.name) = true
    · simp [hname]
    · simp only [Bool.not_eq_true] at hname
      by_cases hv : fp.visited = true
      · simp [hname, hv]
      · simp only [Bool.not_eq_true] at hv
        simp only [hname, hv, Bool.false_eq_true, if_false]
        have hfold :=
          dfs_foldl_unvisited_le fuel ti (fun g e => ih g e ti) fp.edges false
            (g.set fi { fp with visited := true })
        have hset := unvisitedCount_set g fi fp h1 hv
        omega

lemma dfs_foldl_fuel (fuel ti : Nat)
    (ihstep : ∀ g e, unvisitedCount g < fuel → dfs (fuel + 1) g e ti = dfs fuel g e ti) :
    ∀ (es : List Nat) (b : Bool) (g : Graph), unvisitedCount g < fuel →
      es.foldl (fun acc e => if acc.1 then acc else dfs (fuel + 1) acc.2 e ti) (b, g) =
        es.foldl (fun acc e => if acc.1 then acc else dfs fuel acc.2 e ti) (b, g) := by
  intro es
  induction es with
  | nil => intro b g _; rfl
  | cons e es ihes =>
    intro b g hg
    rw [List.foldl_cons, List.foldl_cons]
    cases b with
    | true =>
      have harm1 : (if ((true : Bool), g).1 = true then ((true : Bool), g)
          else dfs (fuel + 1) ((true : Bool), g).2 e ti) = ((true : Bool), g) := by simp
      have harm2 : (if ((true : Bool), g).1 = true then ((true : Bool), g)
          else dfs fuel ((true : Bool), g).2 e ti) = ((true : Bool), g) := by simp
      rw [harm1, harm2]
      exact ihes true g hg
    | false =>
      rcases hd : dfs fuel g e ti with ⟨r, g'⟩
      have hstep := ihstep g e hg
      have hg' : unvisitedCount g' ≤ unvisitedCount g := by
        have := dfs_unvisited_le fuel g e ti
        rw [hd] at this
        exact this
      have harm1 : (if ((false : Bool), g).1 = true then ((false : Bool), g)
          else dfs (fuel + 1) ((false : Bool), g).2 e ti) = (r, g') := by
        simp [hstep, hd]
      have harm2 : (if ((false : Bool), g).1 = true then ((false : Bool), g)
          else (r, g')) = (r, g') := by simp
      rw [harm1, harm2]
      exact ihes r g' (Nat.lt_of_le_of_lt hg' hg)

lemma dfs_fuel_succ :
    ∀ (fuel : Nat) (g : Graph) (fi ti : Nat), unvisitedCount g < fuel →
      dfs (fuel + 1) g fi ti = dfs fuel g fi ti := by
  intro fuel
  induction fuel with
  | zero => intro g fi ti h; omega
  | succ fuel ih =>
    intro g fi ti hg
    rw [dfs, dfs]
    rcases h1 : g[fi]? with _ | fp <;> rcases h2 : g[ti]? with _ | tp <;> simp only [h1, h2]
    by_cases hname : (fp.name == tp.name) = true
    · simp [hname]
    · simp only [Bool.not_eq_true] at hname
      by_cases hv : fp.visited = true
      · simp [hname, hv]
      · simp only [Bool.not_eq_true] at hv
        simp only [hname, hv, Bool.false_eq_true, if_false]
        have hset := unvisitedCount_set g fi fp h1 hv
        exact dfs_foldl_fuel fuel ti (fun g e h => ih g e ti h) fp.edges false
          (g.set fi { fp with visited := true }) (by omega)

lemma dfs_fuel_ge :
    ∀ (m n : Nat), n ≤ m → ∀ (g : Graph) (fi ti : Nat), unvisitedCount g < n →
      dfs m g fi ti = dfs n g fi ti := by
  intro m
  induction m with
  | zero =>
    intro n hn g fi ti _
    have : n = 0 := Nat.le_zero.mp hn
    rw [this]
  | succ m ih =>
    intro n hn g fi ti hg
    by_cases h : n = m + 1
    · rw [h]
    · have hnm : n ≤ m := by omega
      have hm : unvisitedCount g < m := by
        have := Nat.lt_of_lt_of_le hg hnm
        omega
      rw [dfs_fuel_succ m g fi ti hm]
      exact ih n hnm g fi ti hg

/-! Section: Interpreter state decomposition: a line's effect on the graph and on
the printed output never depends on the incoming `errSeen`, and whether the
final `errSeen` is positive depends only on the incoming value and on whether
the line itself records an error. -/

lemma applyEach_nil (f : Graph → String → Nat × Graph) (st : St) :
    applyEach f st [] = st := rfl

lemma applyEach_cons (f : Graph → String → Nat × Graph) (st : St) (a : String)
    (args : List String) :
    applyEach f st (a :: args) =
      applyEach f
        { st with graph := (f st.graph a).2, errSeen := st.errSeen + (f st.graph a).1 }
        args := rfl

lemma applyEach_decomp (f : Graph → String → Nat × Graph) :
    ∀ (args : List String) (g : Graph) (e : Nat) (o : List Bool),
      applyEach f ⟨g, e, o⟩ args =
        ⟨(applyEach f ⟨g, 0, []⟩ args).graph,
          e + (applyEach f ⟨g, 0, []⟩ args).errSeen, o⟩ := by
  intro args
  induction args with
  | nil => intro g e o; simp [applyEach_nil]
  | cons a args ih =>
    intro g e o
    rw [applyEach_cons, applyEach_cons]
    simp only []
    rw [ih (f g a).2 (e + (f g a).1) o, ih (f g a).2 (0 + (f g a).1) []]
    simp only [St.mk.injEq, and_true, true_and]
    omega

lemma applyEach_graph (f : Graph → String → Nat × Graph) (args : List String)
    (g : Graph) (e : Nat) (o : List Bool) :
    (applyEach f ⟨g, e, o⟩ args).graph = (applyEach f ⟨g, 0, []⟩ args).graph := by
  rw [applyEach_decomp]

lemma applyEach_err (f : Graph → String → Nat × Graph) (args : List String)
    (g : Graph) (e : Nat) (o : List Bool) :
    (applyEach f ⟨g, e, o⟩ args).errSeen = e + (applyEach f ⟨g, 0, []⟩ args).errSeen := by
  rw [applyEach_decomp]

lemma processLine_decomp (g : Graph) (e : Nat) (o : List Bool) (l : List String) :
    (processLine ⟨g, e, o⟩ l).graph = (processLine ⟨g, 0, []⟩ l).graph ∧
      (1 ≤ (processLine ⟨g, e, o⟩ l).errSeen ↔
        1 ≤ e ∨ 1 ≤ (processLine ⟨g, 0, []⟩ l).errSeen) := by
  match l with
  | [] => simp [processLine]
  | verb :: args =>
    by_cases h1 : (verb == "@addPages") = true
    · have e1 : ∀ (st : St), processLine st (verb :: args) = doAddPages st args := by
        intro st; simp [processLine, h1]
      rw [e1, e1, doAddPages, doAddPages, applyEach_graph, applyEach_err]
      exact ⟨rfl, by omega⟩
    · by_cases h2 : (verb == "@addLinks") = true
      · have e1 : ∀ (st : St), processLine st (verb :: args) = doAddLinks st args := by
          intro st; simp [processLine, h1, h2]
        rw [e1, e1]
        match args with
        | [] => exact ⟨rfl, by simp [doAddLinks]⟩
        | [x] => exact ⟨rfl, by simp [doAddLinks]⟩
        | src :: d :: rest =>
          have e3 : ∀ (st : St), doAddLinks st (src :: d :: rest) =
              applyEach (fun g0 d0 => addLinkToPage g0 src d0) st (d :: rest) :=
            fun _ => rfl
          rw [e3, e3, applyEach_graph, applyEach_err]
          exact ⟨rfl, by omega⟩
      · by_cases h3 : (verb == "@isConnected") = true
        · have e1 : ∀ (st : St), processLine st (verb :: args) = doIsConnected st args := by
            intro st; simp [processLine, h1, h2, h3]
          rw [e1, e1]
          match args with
          | [] => exact ⟨rfl, by simp [doIsConnected]⟩
          | [x] => exact ⟨rfl, by simp [doIsConnected]⟩
          | [a, b] =>
            by_cases hf : findPage g a ≠ 0 ∨ findPage g b ≠ 0
            · have e3 : ∀ (e' : Nat) (o' : List Bool),
                  doIsConnected ⟨g, e', o'⟩ [a, b] = ⟨g, e' + 1, o'⟩ := by
                intro e' o'; simp [doIsConnected, hf]
              rw [e3, e3]
              exact ⟨rfl, by simp⟩
            · have e3 : ∀ (e' : Nat) (o' : List Bool),
                  doIsConnected ⟨g, e', o'⟩ [a, b] =
                    ⟨(printConnection g a b).2, e',
                      o' ++ [(printConnection g a b).1]⟩ := by
                intro e' o'; simp [doIsConnected, hf]
              rw [e3, e3]
              exact ⟨rfl, by simp⟩
          | a :: b :: c :: rest => exact ⟨rfl, by simp [doIsConnected]⟩
        · have e1 : ∀ (e' : Nat) (o' : List Bool),
              processLine ⟨g, e', o'⟩ (verb :: args) = ⟨g, 1, o'⟩ := by
            intro e' o'; simp [processLine, h1, h2, h3]
          rw [e1, e1]
          exact ⟨rfl, by simp⟩

lemma lineHasError_iff (g : Graph) (l : List String) :
    lineHasError g l = true ↔ 1 ≤ (processLine ⟨g, 0, []⟩ l).errSeen := by
  simp [lineHasError]

lemma processLines_cons (st : St) (l : List String) (ls : List (List String)) :
    processLines st (l :: ls) = processLines (processLine st l) ls := rfl

lemma processLines_err_iff :
    ∀ (ls : List (List String)) (g : Graph) (e : Nat) (o : List Bool),
      1 ≤ (processLines ⟨g, e, o⟩ ls).errSeen ↔ 1 ≤ e ∨ anyLineError g ls = true := by
  intro ls
  induction ls with
  | nil => intro g e o; simp [processLines, anyLineError]
  | cons l ls ih =>
    intro g e o
    rw [processLines_cons]
    have heta : processLines (processLine ⟨g, e, o⟩ l) ls =
        processLines ⟨(processLine ⟨g, e, o⟩ l).graph, (processLine ⟨g, e, o⟩ l).errSeen,
          (processLine ⟨g, e, o⟩ l).output⟩ ls := rfl
    rw [heta, ih]
    obtain ⟨hgr, herr⟩ := processLine_decomp g e o l
    rw [hgr, herr, anyLineError]
    simp only [Bool.or_eq_true, lineHasError_iff]
    tauto

/-! Section: The visited-flag invariant across the interpreter -/

lemma addPageToGraph_allUnvisited (g : Graph) (node : Page)
    (hg : allUnvisited g) (hn : node.visited = false) :
    allUnvisited (addPageToGraph g node).2 := by
  match g with
  | [] =>
    intro p hp
    simp [addPageToGraph] at hp
    rw [hp]; exact hn
  | q :: rest =>
    rw [addPageToGraph]
    by_cases h : ((q :: rest).any fun p => p.name == node.name) = true
    · simpa [h] using hg
    · simp only [h, Bool.false_eq_true, if_false]
      intro p hp
      rcases List.mem_append.mp hp with hmem | hmem
      · exact hg p hmem
      · rw [List.mem_singleton.mp hmem]; exact hn

lemma findLastIdx_getElem (g : Graph) (n : String) (k : Nat)
    (h : findLastIdx g n = some k) : ∃ p, g[k]? = some p ∧ p.name = n := by
  rw [findLastIdx_eq] at h
  exact lastMatch_spec g n k h

lemma addLinkToPage_missing (g : Graph) (s d : String)
    (h : findLastIdx g s = none ∨ findLastIdx g d = none) :
    addLinkToPage g s d = (1, g) := by
  rcases h with h | h
  · simp [addLinkToPage, h]
  · rcases hs : findLastIdx g s with _ | si
    · simp [addLinkToPage, hs]
    · simp [addLinkToPage, hs, h]

lemma addLinkToPage_found (g : Graph) (s d : String) (si di : Nat) (src : Page)
    (hs : findLastIdx g s = some si) (hd : findLastIdx g d = some di)
    (hsrc : g[si]? = some src) :
    addLinkToPage g s d = (0, g.set si { src with edges := src.edges ++ [di] }) := by
  simp [addLinkToPage, hs, hd, hsrc]

lemma addLinkToPage_allUnvisited (g : Graph) (s d : String)
    (hg : allUnvisited g) : allUnvisited (addLinkToPage g s d).2 := by
  rcases hs : findLastIdx g s with _ | si
  · rw [addLinkToPage_missing g s d (Or.inl hs)]; exact hg
  rcases hd : findLastIdx g d with _ | di
  · rw [addLinkToPage_missing g s d (Or.inr hd)]; exact hg
  obtain ⟨src, hsrc, -⟩ := findLastIdx_getElem g s si hs
  rw [addLinkToPage_found g s d si di src hs hd hsrc]
  intro p hp
  rcases List.mem_or_eq_of_mem_set hp with hmem | rfl
  · exact hg p hmem
  · obtain ⟨hlt, hgel⟩ := List.getElem?_eq_some.mp hsrc
    have hsv : src.visited = false := hg src (hgel ▸ List.getElem_mem hlt)
    exact hsv

lemma applyEach_allUnvisited (f : Graph → String → Nat × Graph)
    (hf : ∀ g a, allUnvisited g → allUnvisited (f g a).2) :
    ∀ (args : List String) (st : St), allUnvisited st.graph →
      allUnvisited (applyEach f st args).graph := by
  intro args
  induction args with
  | nil => intro st h; exact h
  | cons a args ih =>
    intro st h
    rw [applyEach_cons]
    exact ih _ (hf st.graph a h)

lemma processLine_allUnvisited (st : St) (l : List String)
    (h : allUnvisited st.graph) : allUnvisited (processLine st l).graph := by
  match l with
  | [] => exact h
  | verb :: args =>
    by_cases h1 : (verb == "@addPages") = true
    · have e1 : processLine st (verb :: args) = doAddPages st args := by
        simp [processLine, h1]
      rw [e1, doAddPages]
      exact applyEach_allUnvisited _
        (fun g a hg => addPageToGraph_allUnvisited g _ hg rfl) args st h
    · by_cases h2 : (verb == "@addLinks") = true
      · have e1 : processLine st (verb :: args) = doAddLinks st args := by
          simp [processLine, h1, h2]
        rw [e1]
        match args with
        | [] => exact h
        | [x] => exact h
        | src :: d :: rest =>
          have e3 : doAddLinks st (src :: d :: rest) =
              applyEach (fun g0 d0 => addLinkToPage g0 src d0) st (d :: rest) := rfl
          rw [e3]
          exact applyEach_allUnvisited _
            (fun g a hg => addLinkToPage_allUnvisited g src a hg) (d :: rest) st h
      · by_cases h3 : (verb == "@isConnected") = true
        · have e1 : processLine st (verb :: args) = doIsConnected st args := by
            simp [processLine, h1, h2, h3]
          rw [e1]
          match args with
          | [] => exact h
          | [x] => exact h
          | [a, b] =>
            by_cases hf : findPage st.graph a ≠ 0 ∨ findPage st.graph b ≠ 0
            · have e3 : doIsConnected st [a, b] = { st with errSeen := st.errSeen + 1 } := by
                simp [doIsConnected, hf]
              rw [e3]; exact h
            · have e3 : doIsConnected st [a, b] =
                  ⟨(printConnection st.graph a b).2, st.errSeen,
                    st.output ++ [(printConnection st.graph a b).1]⟩ := by
                simp [doIsConnected, hf]
              rw [e3]
              show allUnvisited (printConnection st.graph a b).2
              rw [printConnection_snd]
              exact allUnvisited_resetVisits _
          | a :: b :: c :: rest => exact h
        · have e1 : processLine st (verb :: args) = { st with errSeen := 1 } := by
            simp [processLine, h1, h2, h3]
          rw [e1]; exact h

lemma processLines_allUnvisited (ls : List (List String)) :
    ∀ (st : St), allUnvisited st.graph → allUnvisited (processLines st ls).graph := by
  induction ls with
  | nil => intro st h; exact h
  | cons l ls ih =>
    intro st h
    rw [processLines_cons]
    exact ih _ (processLine_allUnvisited st l h)


/-- One-step unfolding of `dfs` at positive fuel. -/
lemma dfs_succ (fuel : Nat) (g : Graph) (fi ti : Nat) :
    dfs (fuel + 1) g fi ti =
      match g[fi]?, g[ti]? with
      | some fp, some tp =>
        if fp.name == tp.name then (true, g)
        else if fp.visited then (false, g)
        else
          fp.edges.foldl
            (fun acc e => if acc.1 then acc else dfs fuel acc.2 e ti)
            (false, g.set fi { fp with visited := true })
      | _, _ => (false, g) := rfl

/-- The graph of claim C4's cycle scenario, built through the program's own
operations: pages A, B, C and edges A→B, B→A (C unlinked). -/
def c4Graph : Graph :=
  (addLinkToPage
    (addLinkToPage (doAddPages initSt ["A", "B", "C"]).graph "A" "B").2
    "B" "A").2

/-! Section: the claims -/

/-- C2: for every existing page X, the reachability query `isReachable(X,X)`
(`printConnection`) returns true, even with no self-loop edge; the name
equality test fires before the visited flag is consulted or set, so at any
positive fuel `dfs` succeeds immediately on the page's own index, whatever the
visited flags are, and leaves the graph untouched. -/
theorem self_reachability (g : Graph) (X : String) (h : ∃ p ∈ g, p.name = X) :
    (printConnection g X X).1 = true ∧
      ∀ (fuel i : Nat), findNodeIdx g X = some i → dfs (fuel + 1) g i i = (true, g) := by
  have hdfs : ∀ (fuel i : Nat), findNodeIdx g X = some i → dfs (fuel + 1) g i i = (true, g) := by
    intro fuel i hi
    obtain ⟨p, hp, hpn⟩ := findNodeIdx_spec g X i hi
    rw [dfs_succ]
    simp [hp]
  obtain ⟨i, hi⟩ := findNodeIdx_isSome g X h
  constructor
  · rw [printConnection]
    simp only [hi]
    rw [hdfs g.length i hi]
  · exact hdfs

/-- Witness for C2: a one-page store with no edges, queried on itself. -/
theorem self_reachability_witness :
    (printConnection [⟨"A", [], false⟩] "A" "A").1 = true :=
  (self_reachability [⟨"A", [], false⟩] "A" ⟨⟨"A", [], false⟩, by simp, rfl⟩).1

/-- C7: creating a page whose name is already in the store fails (result code
1, the `DuplicateName` diagnostic path) and returns the store exactly as it
was: no page added, no edge list modified, no partial mutation. -/
theorem duplicate_page_rejected (g : Graph) (node : Page)
    (h : ∃ p ∈ g, p.name = node.name) : addPageToGraph g node = (1, g) := by
  match g with
  | [] => simp at h
  | q :: rest =>
    have hany : ((q :: rest).any fun p => p.name == node.name) = true := by
      rw [List.any_eq_true]
      obtain ⟨p, hp, hpn⟩ := h
      exact ⟨p, hp, beq_iff_eq.mpr hpn⟩
    rw [addPageToGraph, if_pos hany]

/-- Witness for C7: re-adding the name "A" (even with different edges and
flags on the incoming node) leaves the one-page store unchanged. -/
theorem duplicate_page_rejected_witness :
    addPageToGraph [⟨"A", [], false⟩] ⟨"A", [7], true⟩ = (1, [⟨"A", [], false⟩]) :=
  duplicate_page_rejected [⟨"A", [], false⟩] ⟨"A", [7], true⟩
    ⟨⟨"A", [], false⟩, by simp, rfl⟩

/-- C6: `addLinkToPage` fails with result 1 (the `NotFound` diagnostic path)
and creates no edge when either name is absent; when both are present it
succeeds with result 0 and the only change is one new edge appended at the end
of the source page's edge list, pointing at the destination page — with no
hypothesis about existing edges, so an identical edge may already be present,
and source and destination may coincide (self-loop). -/
theorem addEdge_notFound_or_append (g : Graph) (s d : String) :
    (((¬∃ p ∈ g, p.name = s) ∨ (¬∃ p ∈ g, p.name = d)) →
      addLinkToPage g s d = (1, g)) ∧
    ((∃ p ∈ g, p.name = s) → (∃ p ∈ g, p.name = d) →
      ∃ si di src dst, findLastIdx g s = some si ∧ findLastIdx g d = some di ∧
        g[si]? = some src ∧ src.name = s ∧ g[di]? = some dst ∧ dst.name = d ∧
        addLinkToPage g s d = (0, g.set si { src with edges := src.edges ++ [di] })) := by
  constructor
  · intro h
    apply addLinkToPage_missing
    rcases h with h | h
    · refine Or.inl ?_
      rw [findLastIdx_eq, lastMatch_eq_none_iff]
      intro p hp hpn
      exact h ⟨p, hp, hpn⟩
    · refine Or.inr ?_
      rw [findLastIdx_eq, lastMatch_eq_none_iff]
      intro p hp hpn
      exact h ⟨p, hp, hpn⟩
  · intro hs hd
    obtain ⟨si, hsi⟩ := (lastMatch_isSome g s hs).imp
      (fun si h => (findLastIdx_eq g s).symm ▸ h)
    obtain ⟨di, hdi⟩ := (lastMatch_isSome g d hd).imp
      (fun di h => (findLastIdx_eq g d).symm ▸ h)
    obtain ⟨src, hsrc, hsrcn⟩ := findLastIdx_getElem g s si hsi
    obtain ⟨dst, hdst, hdstn⟩ := findLastIdx_getElem g d di hdi
    exact ⟨si, di, src, dst, hsi, hdi, hsrc, hsrcn, hdst, hdstn,
      addLinkToPage_found g s d si di src hsi hdi hsrc⟩

/-- Witness for C6: linking to the absent name "X" fails and leaves the store
unchanged; a self-loop "A"→"A" succeeds by appending edge index 0. -/
theorem addEdge_notFound_or_append_witness :
    addLinkToPage [⟨"A", [], false⟩] "A" "X" = (1, [⟨"A", [], false⟩]) ∧
      ∃ si di src dst,
        findLastIdx [(⟨"A", [], false⟩ : Page)] "A" = some si ∧
        findLastIdx [(⟨"A", [], false⟩ : Page)] "A" = some di ∧
        ([(⟨"A", [], false⟩ : Page)])[si]? = some src ∧ src.name = "A" ∧
        ([(⟨"A", [], false⟩ : Page)])[di]? = some dst ∧ dst.name = "A" ∧
        addLinkToPage [⟨"A", [], false⟩] "A" "A" =
          (0, ([(⟨"A", [], false⟩ : Page)]).set si
            { src with edges := src.edges ++ [di] }) :=
  ⟨(addEdge_notFound_or_append [⟨"A", [], false⟩] "A" "X").1
      (Or.inr (by simp)),
    (addEdge_notFound_or_append [⟨"A", [], false⟩] "A" "A").2
      ⟨⟨"A", [], false⟩, by simp, rfl⟩ ⟨⟨"A", [], false⟩, by simp, rfl⟩⟩

/-- C3 as stated is false: an `@addLinks` line with exactly one argument is
silently ignored — no edge is created, but no error is recorded either
(`errSeen` stays 0). -/
theorem addLinks_one_arg_counterexample :
    processLine ⟨[], 0, []⟩ ["@addLinks", "A"] = ⟨[], 0, []⟩ ∧
      (processLine ⟨[], 0, []⟩ ["@addLinks", "A"]).errSeen = 0 := ⟨rfl, rfl⟩

/-- C3 amended: an `@addLinks` line with zero arguments records a usage error
(`errSeen` is set to 1) and creates no edge; a line with exactly one argument
creates no edge but records no error — the state is returned untouched. -/
theorem addLinks_too_few_args (g : Graph) (e : Nat) (o : List Bool) :
    processLine ⟨g, e, o⟩ ["@addLinks"] = ⟨g, 1, o⟩ ∧
      ∀ (a : String), processLine ⟨g, e, o⟩ ["@addLinks", a] = ⟨g, e, o⟩ :=
  ⟨rfl, fun _ => rfl⟩

/-- Witness for C3's amended statement at a nonempty store and nonzero
`errSeen`. -/
theorem addLinks_too_few_args_witness :
    processLine ⟨[⟨"A", [], false⟩], 2, []⟩ ["@addLinks"] = ⟨[⟨"A", [], false⟩], 1, []⟩ ∧
      processLine ⟨[⟨"A", [], false⟩], 2, []⟩ ["@addLinks", "A"] =
        ⟨[⟨"A", [], false⟩], 2, []⟩ :=
  ⟨(addLinks_too_few_args [⟨"A", [], false⟩] 2 []).1,
    (addLinks_too_few_args [⟨"A", [], false⟩] 2 []).2 "A"⟩

/-- C10: a reachability query on two existing pages is read-only on the graph
structure: afterwards the pages' names and edge lists are exactly as before
(same pages in the same order), and every visited flag — the only field the
query touches — is false. -/
theorem query_read_only (g : Graph) (a b : String)
    (_ha : ∃ p ∈ g, p.name = a) (_hb : ∃ p ∈ g, p.name = b) :
    ((printConnection g a b).2).map Page.name = g.map Page.name ∧
      ((printConnection g a b).2).map Page.edges = g.map Page.edges ∧
      ∀ p ∈ (printConnection g a b).2, p.visited = false := by
  rw [printConnection_snd]
  refine ⟨?_, ?_, allUnvisited_resetVisits g⟩
  · simp [resetVisits, List.map_map, Function.comp]
  · simp [resetVisits, List.map_map, Function.comp]

/-- Witness for C10 on a two-page store with one edge, after an unsuccessful
query. -/
theorem query_read_only_witness :
    ((printConnection [⟨"A", [1], false⟩, ⟨"B", [], false⟩] "B" "A").2).map Page.name =
        ([⟨"A", [1], false⟩, ⟨"B", [], false⟩] : Graph).map Page.name ∧
      ((printConnection [⟨"A", [1], false⟩, ⟨"B", [], false⟩] "B" "A").2).map Page.edges =
        ([⟨"A", [1], false⟩, ⟨"B", [], false⟩] : Graph).map Page.edges ∧
      ∀ p ∈ (printConnection [⟨"A", [1], false⟩, ⟨"B", [], false⟩] "B" "A").2,
        p.visited = false :=
  query_read_only [⟨"A", [1], false⟩, ⟨"B", [], false⟩] "B" "A"
    ⟨⟨"B", [], false⟩, by simp, rfl⟩ ⟨⟨"A", [1], false⟩, by simp, rfl⟩

/-- C1: queries never leak traversal state.  First, the interpreter invariant:
after any sequence of command lines every visited flag in the store is false,
so the flag is false before any query starts.  Second, at the engine level:
if all flags are false before a query on two existing pages, the query returns
the store exactly as it was (flags false afterwards as well), and therefore
running the same query again gives the identical result. -/
theorem queries_leak_no_state :
    (∀ (lines : List (List String)), allUnvisited (processLines initSt lines).graph) ∧
      ∀ (g : Graph) (a b : String), allUnvisited g →
        (∃ p ∈ g, p.name = a) → (∃ p ∈ g, p.name = b) →
        (printConnection g a b).2 = g ∧
          allUnvisited (printConnection g a b).2 ∧
          printConnection (printConnection g a b).2 a b = printConnection g a b := by
  constructor
  · intro lines
    exact processLines_allUnvisited lines initSt (by intro p hp; simp [initSt] at hp)
  · intro g a b hg ha hb
    have hsnd : (printConnection g a b).2 = g := by
      rw [printConnection_snd, resetVisits_eq_self g hg]
    refine ⟨hsnd, ?_, ?_⟩
    · rw [hsnd]; exact hg
    · rw [hsnd]

/-- Witness for C1 on a two-page store with edge A→B, query A→B. -/
theorem queries_leak_no_state_witness :
    (printConnection [⟨"A", [1], false⟩, ⟨"B", [], false⟩] "A" "B").2 =
        [⟨"A", [1], false⟩, ⟨"B", [], false⟩] ∧
      allUnvisited (printConnection [⟨"A", [1], false⟩, ⟨"B", [], false⟩] "A" "B").2 ∧
      printConnection
          (printConnection [⟨"A", [1], false⟩, ⟨"B", [], false⟩] "A" "B").2 "A" "B" =
        printConnection [⟨"A", [1], false⟩, ⟨"B", [], false⟩] "A" "B" :=
  queries_leak_no_state.2 [⟨"A", [1], false⟩, ⟨"B", [], false⟩] "A" "B"
    (by simp [allUnvisited])
    ⟨⟨"A", [1], false⟩, by simp, rfl⟩ ⟨⟨"B", [], false⟩, by simp, rfl⟩

/-- C4: every reachability query terminates because the visited guard bounds
the DFS — formally, the fuel-indexed `dfs` is already at its limit at fuel
`|pages| + 1` (the value `printConnection` uses), so every larger fuel gives
the same answer.  Concretely, on the store with pages A, B, C and the cycle
A→B, B→A, the query A→A is true and A→C (C existing but unlinked) is false. -/
theorem dfs_terminates_cycles (g : Graph) (fi ti fuel : Nat)
    (h : g.length + 1 ≤ fuel) :
    dfs fuel g fi ti = dfs (g.length + 1) g fi ti ∧
      (printConnection c4Graph "A" "A").1 = true ∧
      (printConnection c4Graph "A" "C").1 = false := by
  refine ⟨?_, by decide, by decide⟩
  exact dfs_fuel_ge fuel (g.length + 1) h g fi ti
    (Nat.lt_succ_of_le (unvisitedCount_le_length g))

/-- Witness for C4: fuel 10 and the bound fuel agree on the cycle store. -/
theorem dfs_terminates_cycles_witness :
    dfs 10 c4Graph 0 0 = dfs (c4Graph.length + 1) c4Graph 0 0 ∧
      (printConnection c4Graph "A" "A").1 = true ∧
      (printConnection c4Graph "A" "C").1 = false :=
  dfs_terminates_cycles c4Graph 0 0 10 (by decide)

/-- C5: for any two distinct names A and B, after creating pages A and B and
adding the single edge A→B through the store operations, A reaches B and B
does not reach A. -/
theorem single_edge_reachability (A B : String) (hne : A ≠ B) :
    (printConnection
        (addLinkToPage
          (addPageToGraph (addPageToGraph [] ⟨A, [], false⟩).2 ⟨B, [], false⟩).2
          A B).2 A B).1 = true ∧
      (printConnection
        (addLinkToPage
          (addPageToGraph (addPageToGraph [] ⟨A, [], false⟩).2 ⟨B, [], false⟩).2
          A B).2 B A).1 = false := by
  have hAB : (A == B) = false := beq_eq_false_iff_ne.mpr hne
  have hBA : (B == A) = false := beq_eq_false_iff_ne.mpr (Ne.symm hne)
  have h1 : (addPageToGraph [] ⟨A, [], false⟩).2 = [⟨A, [], false⟩] := rfl
  have h2 : (addPageToGraph [⟨A, [], false⟩] ⟨B, [], false⟩).2 =
      [⟨A, [], false⟩, ⟨B, [], false⟩] := by
    simp [addPageToGraph, hAB]
  have h3 : addLinkToPage [⟨A, [], false⟩, ⟨B, [], false⟩] A B =
      (0, [⟨A, [1], false⟩, ⟨B, [], false⟩]) := by
    have hsA : findLastIdx [(⟨A, [], false⟩ : Page), ⟨B, [], false⟩] A = some 0 := by
      simp [findLastIdx, findLastIdxAux, hBA]
    have hsB : findLastIdx [(⟨A, [], false⟩ : Page), ⟨B, [], false⟩] B = some 1 := by
      simp [findLastIdx, findLastIdxAux, hAB]
    rw [addLinkToPage_found _ A B 0 1 ⟨A, [], false⟩ hsA hsB (by simp)]
    rfl
  rw [h1, h2, h3]
  have hfA : findNodeIdx [(⟨A, [1], false⟩ : Page), ⟨B, [], false⟩] A = some 0 := by
    simp [findNodeIdx]
  have hfB : findNodeIdx [(⟨A, [1], false⟩ : Page), ⟨B, [], false⟩] B = some 1 := by
    simp [findNodeIdx, hAB]
  constructor
  · rw [printConnection]
    simp only [hfA, hfB]
    rw [dfs_succ]
    simp only [List.getElem?_cons_zero, List.getElem?_cons_succ, hAB, Bool.false_eq_true,
      if_false]
    rw [List.foldl_cons, List.foldl_nil]
    simp only [List.set_cons_zero, Bool.false_eq_true, if_false]
    rw [List.length_cons, dfs_succ]
    simp [hAB]
  · rw [printConnection]
    simp only [hfB, hfA]
    rw [dfs_succ]
    simp only [List.getElem?_cons_zero, List.getElem?_cons_succ, hBA, Bool.false_eq_true,
      if_false]
    simp [List.foldl_nil]

/-- Witness for C5 at the names "A" and "B". -/
theorem single_edge_reachability_witness :
    (printConnection
        (addLinkToPage
          (addPageToGraph (addPageToGraph [] ⟨"A", [], false⟩).2 ⟨"B", [], false⟩).2
          "A" "B").2 "A" "B").1 = true ∧
      (printConnection
        (addLinkToPage
          (addPageToGraph (addPageToGraph [] ⟨"A", [], false⟩).2 ⟨"B", [], false⟩).2
          "A" "B").2 "B" "A").1 = false :=
  single_edge_reachability "A" "B" (by decide)

/-- C8: an `@isConnected` line attempts a query and emits exactly one boolean
output line precisely when it has exactly two arguments and both pages exist.
Any other argument count records a usage error (`errSeen + 1`) and touches
nothing else; two arguments with a missing page record a `NotFound` error
(`errSeen + 1`) with no output line; two existing pages leave `errSeen` alone,
run the query, and append exactly its boolean to the output. -/
theorem isConnected_line_behaviour (g : Graph) (e : Nat) (o : List Bool)
    (args : List String) :
    (args.length ≠ 2 →
      processLine ⟨g, e, o⟩ ("@isConnected" :: args) = ⟨g, e + 1, o⟩) ∧
    (∀ (a b : String), args = [a, b] →
      ((¬∃ p ∈ g, p.name = a) ∨ (¬∃ p ∈ g, p.name = b)) →
      processLine ⟨g, e, o⟩ ("@isConnected" :: args) = ⟨g, e + 1, o⟩) ∧
    (∀ (a b : String), args = [a, b] →
      (∃ p ∈ g, p.name = a) → (∃ p ∈ g, p.name = b) →
      processLine ⟨g, e, o⟩ ("@isConnected" :: args) =
        ⟨(printConnection g a b).2, e, o ++ [(printConnection g a b).1]⟩) := by
  have e1 : processLine ⟨g, e, o⟩ ("@isConnected" :: args) =
      doIsConnected ⟨g, e, o⟩ args := rfl
  refine ⟨?_, ?_, ?_⟩
  · intro hlen
    rw [e1]
    match args with
    | [] => rfl
    | [x] => rfl
    | [a, b] => simp at hlen
    | a :: b :: c :: rest => rfl
  · intro a b hargs hmiss
    subst hargs
    rw [e1]
    have hcond : findPage g a ≠ 0 ∨ findPage g b ≠ 0 := by
      rcases hmiss with h | h
      · exact Or.inl fun h0 => h ((findPage_eq_zero_iff g a).mp h0)
      · exact Or.inr fun h0 => h ((findPage_eq_zero_iff g b).mp h0)
    simp [doIsConnected, hcond]
  · intro a b hargs ha hb
    subst hargs
    rw [e1]
    have hcond : ¬(findPage g a ≠ 0 ∨ findPage g b ≠ 0) := by
      push_neg
      exact ⟨(findPage_eq_zero_iff g a).mpr ha, (findPage_eq_zero_iff g b).mpr hb⟩
    simp [doIsConnected, hcond]

/-- Witness for C8: wrong argument count, a missing page, and a successful
self-query on a one-page store. -/
theorem isConnected_line_behaviour_witness :
    processLine ⟨[⟨"A", [], false⟩], 0, []⟩ ["@isConnected", "A"] =
        ⟨[⟨"A", [], false⟩], 1, []⟩ ∧
      processLine ⟨[⟨"A", [], false⟩], 0, []⟩ ["@isConnected", "A", "Q"] =
        ⟨[⟨"A", [], false⟩], 1, []⟩ ∧
      processLine ⟨[⟨"A", [], false⟩], 0, []⟩ ["@isConnected", "A", "A"] =
        ⟨(printConnection [⟨"A", [], false⟩] "A" "A").2, 0,
          [] ++ [(printConnection [⟨"A", [], false⟩] "A" "A").1]⟩ :=
  ⟨(isConnected_line_behaviour [⟨"A", [], false⟩] 0 [] ["A"]).1 (by simp),
    (isConnected_line_behaviour [⟨"A", [], false⟩] 0 [] ["A", "Q"]).2.1 "A" "Q" rfl
      (Or.inr (by simp)),
    (isConnected_line_behaviour [⟨"A", [], false⟩] 0 [] ["A", "A"]).2.2 "A" "A" rfl
      ⟨⟨"A", [], false⟩, by simp, rfl⟩ ⟨⟨"A", [], false⟩, by simp, rfl⟩⟩

/-- C9: the process exit status is non-zero exactly when at least one input
line recorded an error, and an error never stops the loop: the lines after any
line are always processed, from the state that line produced. -/
theorem exit_status_iff_any_error (lines : List (List String)) :
    (exitStatus lines ≠ 0 ↔ anyLineError [] lines = true) ∧
      ∀ (st : St) (l : List String) (ls : List (List String)),
        processLines st (l :: ls) = processLines (processLine st l) ls := by
  constructor
  · have heq : processLines initSt lines = processLines ⟨[], 0, []⟩ lines := rfl
    rw [exitStatus, heq]
    have := processLines_err_iff lines [] 0 []
    by_cases h : 1 ≤ (processLines ⟨[], 0, []⟩ lines).errSeen
    · simp only [h, if_true]
      rw [this] at h
      simp only [ne_eq, one_ne_zero, not_false_iff, true_iff]
      rcases h with h | h
      · omega
      · exact h
    · simp only [h, if_false]
      rw [this] at h
      simp only [ne_eq, not_true, false_iff]
      intro hc
      exact h (Or.inr hc)
  · intro st l ls
    rfl

/-- Witness for C9: a duplicate page on the second line makes the exit status
non-zero, and the third line is still processed. -/
theorem exit_status_iff_any_error_witness :
    (exitStatus [["@addPages", "A"], ["@addPages", "A"], ["@addPages", "B"]] ≠ 0 ↔
      anyLineError [] [["@addPages", "A"], ["@addPages", "A"], ["@addPages", "B"]] = true) ∧
      processLines initSt [["@addPages", "A"], ["@addPages", "A"]] =
        processLines (processLine initSt ["@addPages", "A"]) [["@addPages", "A"]] :=
  ⟨(exit_status_iff_any_error
      [["@addPages", "A"], ["@addPages", "A"], ["@addPages", "B"]]).1,
    (exit_status_iff_any_error [["@addPages", "A"], ["@addPages", "A"]]).2 initSt
      ["@addPages", "A"] [["@addPages", "A"]]⟩

end WebPageLinker
